import Mathlib

/-!
Verification development for the image-segmentation repository.

The repository's computational core consists of two algorithm files (a
k-means segmentation with k-means++ seeding plus mean-shift/watershed
variants, and a second file with a simpler k-means, a greedy mean-shift
and an index-modulo watershed) and a cluster-validity metrics file.

This file gives a shallow embedding of those functions and proves, or
refutes, the frozen specification claims about them.

Modelling conventions:
* JavaScript numbers are modelled by `ℝ` (exact arithmetic; the pure
  rational color helper `hslToRgb` is modelled over `ℚ`).
* `Math.random()` draws are modelled by explicit draw streams passed as
  parameters; each call site receives its own stream, which is an
  equivalent presentation of one ambient random source.
* `Infinity` seeds of running minima are modelled by `Option` (with
  `none` standing for the initial `Infinity`, which every real compares
  below).
* `ImageData.data` buffers are value-typed lists; the embedded
  operations read their input and build a fresh output list, exactly as
  the source code only ever writes into the freshly allocated
  `new ImageData(width, height)` buffer.
-/

namespace ImageSeg

noncomputable section

/-- The decoded image handed to the core: width, height and the flat
row-major RGBA byte sequence. -/
structure ImageData where
  width : ℕ
  height : ℕ
  data : List ℕ

/-- JavaScript `Math.round`: rounds to the nearest integer, halves
toward positive infinity. -/
def jsRound (x : ℚ) : ℤ := ⌊x + 1/2⌋

/-- The `hue2rgb` helper inside `hslToRgb` (part_001).  The two
sequential normalisation steps `if (t < 0) t += 1; if (t > 1) t -= 1;`
are applied to the running value in order. -/
def hue2rgb (p q t0 : ℚ) : ℚ :=
  let t1 := if t0 < 0 then t0 + 1 else t0
  let t := if t1 > 1 then t1 - 1 else t1
  if t < 1/6 then p + (q - p) * 6 * t
  else if t < 1/2 then q
  else if t < 2/3 then p + (q - p) * (2/3 - t) * 6
  else p

/-- The `hslToRgb` helper from part_001: converts hue/saturation/lightness to an
RGB triple of rounded integers. -/
def hslToRgb (h s l : ℚ) : List ℤ :=
  if s = 0 then
    [jsRound (l * 255), jsRound (l * 255), jsRound (l * 255)]
  else
    let q := if l < 1/2 then l * (1 + s) else l + s - l * s
    let p := 2 * l - q
    [jsRound (hue2rgb p q (h + 1/3) * 255),
     jsRound (hue2rgb p q h * 255),
     jsRound (hue2rgb p q (h - 1/3) * 255)]

/-- Sum of squared channel differences: the body of
`a.reduce((sum, val, i) => sum + (val - b[i]) ** 2, 0)` shared by both
`euclideanDistance` helpers in the source. -/
def sqDist (a b : List ℝ) : ℝ :=
  a.enum.foldl (fun sum vi => sum + (vi.2 - b.getD vi.1 0) ^ 2) 0

/-- The `euclideanDistance` helper: `Math.sqrt` of the summed squared channel
differences.  Both algorithm files and the metrics file use this same
formula (part_001 writes the three-channel special case inline). -/
def euclideanDistance (a b : List ℝ) : ℝ := Real.sqrt (sqDist a b)

/-- Pixel extraction shared by the algorithms and metrics:
`for (let i = 0; i < data.length; i += 4) pixels.push([data[i], data[i+1], data[i+2]])`
(stated for well-formed RGBA buffers whose length is a multiple of 4). -/
def pixelsOfData : List ℕ → List (List ℝ)
  | r :: g :: b :: _ :: rest => [(r : ℝ), (g : ℝ), (b : ℝ)] :: pixelsOfData rest
  | _ => []

/-- First-occurrence deduplication, the order produced by
`[...new Set(labels)]`. -/
def jsUnique (l : List ℕ) : List ℕ :=
  l.foldl (fun acc a => if a ∈ acc then acc else acc ++ [a]) []

/-! ## part_000: `kMeansSegmentation` with k-means++ seeding -/

/-- The spread `Math.min(...centroids.map(c => euclideanDistance(p, c)))` for a
nonempty list (for the empty list JS would give `Infinity`; the
initialisation always calls this with at least one centroid). -/
def listMinD : List ℝ → ℝ
  | [] => 0
  | a :: t => t.foldl min a

/-- The per-pixel weights of the k-means++ sampling step:
`pixels.map(p => Math.min(...centroids.map(c => euclideanDistance(p, c))))`.
Each weight is the (plain, square-rooted) Euclidean distance from the
pixel to its nearest already-chosen centroid. -/
def kppDistances (pixels centroids : List (List ℝ)) : List ℝ :=
  pixels.map (fun p => listMinD (centroids.map (fun c => euclideanDistance p c)))

/-- Modelled from the spec: the weights the specification describes for
the k-means++ sampling step, namely the *squared* Euclidean distance of
each pixel to its nearest already-chosen centroid.  Kept only to compare
against `kppDistances`, which is what the code computes. -/
def kppSquaredWeights (pixels centroids : List (List ℝ)) : List ℝ :=
  pixels.map (fun p => listMinD (centroids.map (fun c => sqDist p c)))

/-- The cumulative-sum selection loop of the k-means++ initialisation:
walk the pixel/weight pairs accumulating `cumulative += distances[i]`
and return the first pixel with `cumulative >= threshold` (`none` if the
loop falls through, which for the code would mean no push at all). -/
def kppPick : List (List ℝ × ℝ) → ℝ → ℝ → Option (List ℝ)
  | [], _, _ => none
  | pd :: rest, threshold, cum =>
    if cum + pd.2 ≥ threshold then some pd.1 else kppPick rest threshold (cum + pd.2)

/-- One round of the `while (centroids.length < k)` body: compute the
nearest-centroid distances, their total, the threshold
`Math.random() * sum`, and pick by cumulative sum. -/
def kppRound (pixels centroids : List (List ℝ)) (u : ℝ) : Option (List ℝ) :=
  let distances := kppDistances pixels centroids
  let sum := distances.foldl (· + ·) 0
  kppPick (pixels.zip distances) (u * sum) 0

/-- Modelled from the spec: `kppRound` with the squared-distance weights
the specification prescribes, for comparison with the code's behaviour. -/
def kppRoundSquared (pixels centroids : List (List ℝ)) (u : ℝ) : Option (List ℝ) :=
  let distances := kppSquaredWeights pixels centroids
  let sum := distances.foldl (· + ·) 0
  kppPick (pixels.zip distances) (u * sum) 0

/-- The k-means++ initialisation loop `while (centroids.length < k)`,
with fuel `k` (each round pushes exactly one centroid, so `k` rounds
always suffice; a failing pick, impossible for nonempty pixel lists and
draws in `[0,1)`, is modelled by stopping, where the source would spin). -/
def kppInit (pixels : List (List ℝ)) (k : ℕ) (uInit : ℕ → ℝ) :
    ℕ → List (List ℝ) → List (List ℝ)
  | 0, centroids => centroids
  | fuel + 1, centroids =>
    if centroids.length < k then
      match kppRound pixels centroids (uInit centroids.length) with
      | some p => kppInit pixels k uInit fuel (centroids ++ [p])
      | none => centroids
    else centroids

/-- The assignment fold for one pixel: `minDist = Infinity` (`none`),
then for each centroid in order keep the strictly smaller distance and
its index. -/
def nearestIdx (pixel : List ℝ) (centroids : List (List ℝ)) : ℕ :=
  (centroids.enum.foldl
    (fun acc jc =>
      let dist := euclideanDistance pixel jc.2
      match acc.1 with
      | none => (some dist, jc.1)
      | some m => if dist < m then (some dist, jc.1) else acc)
    ((none : Option ℝ), 0)).2

/-- The per-cluster sums and counts accumulated during one assignment
pass: `clusters = Array(k).fill(...).map(() => ({sum: [0,0,0], count: 0}))`
filled by `clusters[clusterIdx].sum += pixel; clusters[clusterIdx].count++`. -/
def clusterInfo (pixels : List (List ℝ)) (labels : List ℕ) (k : ℕ) :
    List (List ℝ × ℕ) :=
  (List.range k).map (fun j =>
    let members := ((pixels.zip labels).filter (fun pl => pl.2 == j)).map (·.1)
    (members.foldl (fun s p => s.enum.map (fun iv => iv.2 + p.getD iv.1 0)) [0, 0, 0],
     members.length))

/-- The centroid update step: nonempty clusters get the component-wise
mean `cluster.sum.map(v => v / cluster.count)`; empty clusters are
reseeded with `centroids[Math.floor(Math.random() * centroids.length)]`,
an element of the *current* (pre-update) centroid array.  `u j` is the
draw consumed for cluster `j` when it is empty. -/
def updateCentroids (info : List (List ℝ × ℕ)) (centroids : List (List ℝ))
    (u : ℕ → ℝ) : List (List ℝ) :=
  info.enum.map (fun ji =>
    if 0 < ji.2.2 then ji.2.1.map (fun v => v / (ji.2.2 : ℝ))
    else centroids.getD (⌊u ji.1 * (centroids.length : ℝ)⌋).toNat [])

/-- One assign-and-update pass of the Lloyd loop body, returning the new
labels and centroids. -/
def lloydPass (pixels : List (List ℝ)) (k : ℕ) (u : ℕ → ℝ)
    (centroids : List (List ℝ)) : List ℕ × List (List ℝ) :=
  let newLabels := pixels.map (fun p => nearestIdx p centroids)
  (newLabels, updateCentroids (clusterInfo pixels newLabels k) centroids u)

/-- The `do { ... } while (changed && iterations++ < 100)` loop.  The
fuel argument counts the guard evaluations that may still come out true
(the post-increment lets the guard pass for `iterations = 0 .. 99`, so
the initial fuel is 100); every invocation runs the body once, and the
returned number counts the executed passes. -/
def lloydGo (pixels : List (List ℝ)) (k : ℕ) (uRes : ℕ → ℕ → ℝ) :
    ℕ → ℕ → List ℕ → List (List ℝ) → (List ℕ × List (List ℝ)) × ℕ
  | 0, passIdx, _labels, centroids => (lloydPass pixels k (uRes passIdx) centroids, 1)
  | fuel + 1, passIdx, labels, centroids =>
    let st := lloydPass pixels k (uRes passIdx) centroids
    if st.1 ≠ labels then
      let r := lloydGo pixels k uRes fuel (passIdx + 1) st.1 st.2
      (r.1, r.2 + 1)
    else (st, 1)

/-- The fresh output image built by each segmentation operation.  The
entries record the values written into the `new ImageData(width,
height)` buffer (the browser's `Uint8ClampedArray` store additionally
rounds and clamps each write to a byte, which does not affect the facts
proved here: the alpha writes are the literal 255 and the layout is four
entries per pixel). -/
structure OutImage where
  width : ℕ
  height : ℕ
  data : List ℝ

/-- The result record `{ imageData, labels, centroids }` returned by the
segmentation operations. -/
structure ClusteringResult where
  imageData : OutImage
  labels : List ℕ
  centroids : List (List ℝ)

/-- The final recoloring loop of part_000's `kMeansSegmentation`: for
each pixel write the three channels of its cluster's centroid and an
alpha byte of 255 into the fresh output buffer. -/
def recolor (labels : List ℕ) (colors : List (List ℝ)) : List ℝ :=
  (labels.map (fun l =>
    [(colors.getD l []).getD 0 0, (colors.getD l []).getD 1 0,
     (colors.getD l []).getD 2 0, 255])).flatten

/-- part_000 `kMeansSegmentation(imageData, k)`.  Random draws:
`u0` picks the first centroid, `uInit r` drives round `r` of the
k-means++ sampling, and `uRes p j` reseeds empty cluster `j` in pass `p`. -/
def kMeansSegmentation0 (img : ImageData) (k : ℕ) (u0 : ℝ) (uInit : ℕ → ℝ)
    (uRes : ℕ → ℕ → ℝ) : ClusteringResult :=
  let pixels := pixelsOfData img.data
  let first := pixels.getD (⌊u0 * (pixels.length : ℝ)⌋).toNat []
  let centroids := kppInit pixels k uInit k [first]
  let res := lloydGo pixels k uRes 100 0 (List.replicate pixels.length 0) centroids
  { imageData := ⟨img.width, img.height, recolor res.1.1 res.1.2⟩,
    labels := res.1.1,
    centroids := res.1.2 }

/-- The pass-count behaviour of `do { body } while (changed &&
iterations++ < 100)` with the body's per-pass `changed` outcome
abstracted as an oracle: the body runs once, then continues while the
oracle reports a change and fuel (the number of guard evaluations that
may still come out true, initially 100) remains. -/
def doWhileFrom (changed : ℕ → Bool) : ℕ → ℕ → ℕ
  | 0, _ => 1
  | fuel + 1, idx => if changed idx then doWhileFrom changed fuel (idx + 1) + 1 else 1

/-- Number of assign-and-update passes the part_000 loop executes for a
given sequence of per-pass change outcomes. -/
def kmeansPassCount (changed : ℕ → Bool) : ℕ := doWhileFrom changed 100 0

/-! ## part_001: simple k-means, greedy mean-shift, index-modulo watershed -/

/-- part_001's random centroid initialisation: `k` centroids whose three
channels are `Math.random() * 255` draws. -/
def km1Init (k : ℕ) (uc : ℕ → ℝ) : List (List ℝ) :=
  (List.range k).map (fun i => [255 * uc (3 * i), 255 * uc (3 * i + 1), 255 * uc (3 * i + 2)])

/-- part_001's per-cluster member lists: `clusters[cluster].push([r,g,b])`
during the assignment sweep. -/
def km1Clusters (pixels : List (List ℝ)) (labels : List ℕ) (k : ℕ) :
    List (List (List ℝ)) :=
  (List.range k).map (fun j => ((pixels.zip labels).filter (fun pl => pl.2 == j)).map (·.1))

/-- part_001's centroid update: `for (j < k) if (clusters[j].length > 0)`
replace `centroids[j]` by the per-channel means, else keep it. -/
def km1Update (clusters : List (List (List ℝ))) (centroids : List (List ℝ)) :
    List (List ℝ) :=
  centroids.enum.map (fun jc =>
    let cl := clusters.getD jc.1 []
    if 0 < cl.length then
      [(cl.foldl (fun s p => s + p.getD 0 0) 0) / (cl.length : ℝ),
       (cl.foldl (fun s p => s + p.getD 1 0) 0) / (cl.length : ℝ),
       (cl.foldl (fun s p => s + p.getD 2 0) 0) / (cl.length : ℝ)]
    else jc.2)

/-- part_001's fixed iteration loop `for (iter = 0; iter < 15; iter++)`:
each iteration recomputes all labels (the same `minDist = Infinity` fold
as part_000, with the three-channel distance written inline) and then
updates the centroids; the labels of the final iteration are returned. -/
def km1Loop (pixels : List (List ℝ)) (k : ℕ) :
    ℕ → List (List ℝ) → List ℕ → List ℕ × List (List ℝ)
  | 0, centroids, labels => (labels, centroids)
  | n + 1, centroids, _ =>
    let labels := pixels.map (fun p => nearestIdx p centroids)
    km1Loop pixels k n (km1Update (km1Clusters pixels labels k) centroids) labels

/-- The synthetic cluster colors of part_001: evenly spaced hues at the
given saturation and lightness, converted by `hslToRgb` (each channel
cast to `ℝ` as written into the output buffer). -/
def syntheticColors (count : ℕ) (s l : ℚ) : List (List ℝ) :=
  (List.range count).map (fun i =>
    (hslToRgb (((i : ℚ) * 360 / (count : ℚ)) / 360) s l).map (fun z => (z : ℝ)))

/-- part_001 `kMeansSegmentation(imageData, k)`: random init, 15 fixed
iterations, output colored by `hslToRgb(hue/360, 0.8, 0.7)` per cluster. -/
def kMeansSegmentation1 (img : ImageData) (k : ℕ) (uc : ℕ → ℝ) : ClusteringResult :=
  let pixels := pixelsOfData img.data
  let res := km1Loop pixels k 15 (km1Init k uc) []
  { imageData := ⟨img.width, img.height, recolor res.1 (syntheticColors k (8/10) (7/10))⟩,
    labels := res.1,
    centroids := res.2 }

/-- part_001 `meanShiftSegmentation`'s single sweep: for each pixel scan
the existing modes in order and take the first within `bandwidth * 40`
(Euclidean RGB distance); otherwise append the pixel itself as a new
mode and label the pixel with the new mode's index. -/
def msAssign (bw : ℝ) : List (List ℝ) → List (List ℝ) → List (List ℝ) × List ℕ
  | [], modes => (modes, [])
  | p :: rest, modes =>
    match modes.findIdx? (fun m => decide (euclideanDistance p m < bw * 40)) with
    | some j =>
      let r := msAssign bw rest modes
      (r.1, j :: r.2)
    | none =>
      let r := msAssign bw rest (modes ++ [p])
      (r.1, modes.length :: r.2)

/-- part_001 `meanShiftSegmentation(imageData, bandwidth)`: greedy mode
bucketing, output colored by `hslToRgb(hue/360, 0.9, 0.6)` per mode, and
the modes returned as the centroids. -/
def meanShiftSegmentation1 (img : ImageData) (bw : ℝ) : ClusteringResult :=
  let pixels := pixelsOfData img.data
  let res := msAssign bw pixels []
  { imageData := ⟨img.width, img.height, recolor res.2 (syntheticColors res.1.length (9/10) (6/10))⟩,
    labels := res.2,
    centroids := res.1 }

/-- part_001 watershed's gradient pass over the interior pixels:
for `y` in `1..height-2`, `x` in `1..width-2` the centered differences
of the red channel and their magnitude `Math.sqrt(gx*gx + gy*gy)`. -/
def watershedGradients (img : ImageData) : List ℝ :=
  ((List.range (img.height - 2)).map (fun y0 =>
    (List.range (img.width - 2)).map (fun x0 =>
      let y := y0 + 1
      let x := x0 + 1
      let gx := ((img.data.getD ((y * img.width + x + 1) * 4) 0 : ℝ)) -
        ((img.data.getD ((y * img.width + x - 1) * 4) 0 : ℝ))
      let gy := ((img.data.getD (((y + 1) * img.width + x) * 4) 0 : ℝ)) -
        ((img.data.getD (((y - 1) * img.width + x) * 4) 0 : ℝ))
      Real.sqrt (gx * gx + gy * gy)))).flatten

/-- part_001 watershed's seed list: the indices whose gradient magnitude
is below the threshold `sigma * 15`. -/
def watershedSeeds (img : ImageData) (sigma : ℝ) : List ℕ :=
  ((watershedGradients img).enum.filter (fun ig => decide (ig.2 < sigma * 15))).map (·.1)

/-- part_001 watershed's region count: `Math.min(seeds.length, 12)`. -/
def watershedNumRegions (img : ImageData) (sigma : ℝ) : ℕ :=
  min (watershedSeeds img sigma).length 12

/-- part_001 `watershedSegmentation(imageData, sigma)`: gradient
magnitudes, seeds below `sigma * 15`, at most 12 regions, and a
pixel-index-modulo-region assignment colored by
`hslToRgb(hue/360, 0.85, 0.65)`.  When `numRegions = 0` and the data
buffer is nonempty, the source computes `pixelIdx % 0 = NaN` for the
first pixel and then throws a TypeError on `regionCentroids[NaN][0]`
before returning anything; that crash is modelled by `none`. -/
def watershedSegmentation1 (img : ImageData) (sigma : ℝ) : Option ClusteringResult :=
  if watershedNumRegions img sigma = 0 ∧ img.data.length ≠ 0 then none
  else
    let pixels := pixelsOfData img.data
    let numRegions := watershedNumRegions img sigma
    let regionCentroids := syntheticColors numRegions (85/100) (65/100)
    let labels := (List.range pixels.length).map (fun i => i % numRegions)
    some { imageData := ⟨img.width, img.height, recolor labels regionCentroids⟩,
           labels := labels,
           centroids := regionCentroids }

/-! ## metricsCalculation.ts -/

/-- The member list of the cluster labelled `cur`:
`pixels.filter((_, idx) => labels[idx] === cur)`, the filter construct
`calculateSilhouetteScore` uses both for the own cluster and for each
other cluster. -/
def silhouetteSame (pixels : List (List ℝ)) (labels : List ℕ) (cur : ℕ) :
    List (List ℝ) :=
  (pixels.enum.filter (fun jp => labels.getD jp.1 0 == cur)).map (·.2)

/-- The intra-cluster term `a` of `calculateSilhouetteScore` for the
pixel at index `i` with value `p`: the summed distance to every pixel of
the own cluster (the pixel itself included, contributing distance 0)
divided by `sameClusterPixels.length - 1`, or 0 for a singleton
cluster. -/
def silhouetteA (pixels : List (List ℝ)) (labels : List ℕ) (i : ℕ)
    (p : List ℝ) : ℝ :=
  let sameCluster := silhouetteSame pixels labels (labels.getD i 0)
  let intra := (sameCluster.map (fun q => euclideanDistance p q)).foldl (· + ·) 0
  if 1 < sameCluster.length then intra / ((sameCluster.length : ℝ) - 1) else 0

/-- Modelled from the spec: the `a` term as the specification words it —
the mean distance to the *other* pixels of the own cluster, 0 if the
cluster has size 1. -/
def specSilhouetteA (pixels : List (List ℝ)) (labels : List ℕ) (i : ℕ)
    (p : List ℝ) : ℝ :=
  let others := (pixels.enum.filter
    (fun jp => labels.getD jp.1 0 == labels.getD i 0 && jp.1 != i)).map (·.2)
  if others.length = 0 then 0
  else ((others.map (fun q => euclideanDistance p q)).foldl (· + ·) 0) / (others.length : ℝ)

/-- The nearest-other-cluster term `b`: the `Math.min` accumulation over
the unique labels different from the pixel's own, of the mean distance
to that cluster's pixels.  The `Infinity` start is modelled by an
`Option` fold.  The specification's description of `b` (minimum over the
other clusters of the mean distance to that cluster's pixels) is this
same computation, so code and spec share it. -/
def silhouetteB (pixels : List (List ℝ)) (labels : List ℕ)
    (uniqueLabels : List ℕ) (i : ℕ) (p : List ℝ) : ℝ :=
  (uniqueLabels.foldl (fun acc lab =>
    if lab == labels.getD i 0 then acc
    else
      let other := silhouetteSame pixels labels lab
      let inter := (other.map (fun q => euclideanDistance p q)).foldl (· + ·) 0
      let avg := if 0 < other.length then inter / (other.length : ℝ) else 0
      match acc with
      | none => some avg
      | some m => some (min m avg)) (none : Option ℝ)).getD 0

/-- The per-pixel silhouette coefficient of `calculateSilhouetteScore`:
`s = 0` if `a == 0`, else `(b - a) / max(a, b)`. -/
def silhouetteCoeff (pixels : List (List ℝ)) (labels : List ℕ)
    (uniqueLabels : List ℕ) (i : ℕ) (p : List ℝ) : ℝ :=
  let a := silhouetteA pixels labels i p
  let b := silhouetteB pixels labels uniqueLabels i p
  if a = 0 then 0 else (b - a) / max a b

/-- Modelled from the spec: the per-pixel score with the spec's `a`
(mean distance to the other own-cluster pixels). -/
def specSilhouetteCoeff (pixels : List (List ℝ)) (labels : List ℕ)
    (uniqueLabels : List ℕ) (i : ℕ) (p : List ℝ) : ℝ :=
  let a := specSilhouetteA pixels labels i p
  let b := silhouetteB pixels labels uniqueLabels i p
  if a = 0 then 0 else (b - a) / max a b

/-- The metric `calculateSilhouetteScore(imageData, labels)`: the mean over all
pixels of the per-pixel silhouette coefficients. -/
def calculateSilhouetteScore (img : ImageData) (labels : List ℕ) : ℝ :=
  let pixels := pixelsOfData img.data
  let uniqueLabels := jsUnique labels
  ((pixels.enum.map (fun ip => silhouetteCoeff pixels labels uniqueLabels ip.1 ip.2)).foldl
    (· + ·) 0) / (pixels.length : ℝ)

/-- Modelled from the spec: overall silhouette score as the mean of the
spec-worded per-pixel scores. -/
def specSilhouetteScore (img : ImageData) (labels : List ℕ) : ℝ :=
  let pixels := pixelsOfData img.data
  let uniqueLabels := jsUnique labels
  ((pixels.enum.map (fun ip => specSilhouetteCoeff pixels labels uniqueLabels ip.1 ip.2)).foldl
    (· + ·) 0) / (pixels.length : ℝ)

/-- The helper `calculateScatter(cluster, centroid)`: mean member-to-centroid
distance, `0` for an empty cluster. -/
def calculateScatter (cluster : List (List ℝ)) (centroid : List ℝ) : ℝ :=
  if cluster.length = 0 then 0
  else ((cluster.map (fun pt => euclideanDistance pt centroid)).foldl (· + ·) 0) /
    (cluster.length : ℝ)

/-- The metric `calculateDaviesBouldinIndex(centroids, clusters)`: for each cluster
the maximal scatter-sum-to-centroid-distance ratio against the other
clusters (a `maxRatio` accumulation starting at 0), averaged over the
`k` clusters. -/
def calculateDaviesBouldinIndex (centroids : List (List ℝ))
    (clusters : List (List (List ℝ))) : ℝ :=
  let k := centroids.length
  let db := ((List.range k).map (fun i =>
    (List.range k).foldl (fun maxRatio j =>
      if i ≠ j then
        let scatterI := calculateScatter (clusters.getD i []) (centroids.getD i [])
        let scatterJ := calculateScatter (clusters.getD j []) (centroids.getD j [])
        let distance := euclideanDistance (centroids.getD i []) (centroids.getD j [])
        max maxRatio ((scatterI + scatterJ) / distance)
      else maxRatio) 0)).foldl (· + ·) 0
  db / (k : ℝ)

/-- The metric `calculateCalinskiHarabaszIndex(imageData, centroids, labels)`:
between-cluster over within-cluster dispersion ratio
`(betweenSS / (k - 1)) / (withinSS / (n - k))`. -/
def calculateCalinskiHarabaszIndex (img : ImageData)
    (centroids : List (List ℝ)) (labels : List ℕ) : ℝ :=
  let pixels := pixelsOfData img.data
  let k := centroids.length
  let n := pixels.length
  let overall :=
    [(pixels.foldl (fun s p => s + p.getD 0 0) 0) / (n : ℝ),
     (pixels.foldl (fun s p => s + p.getD 1 0) 0) / (n : ℝ),
     (pixels.foldl (fun s p => s + p.getD 2 0) 0) / (n : ℝ)]
  let betweenSS := ((List.range k).map (fun i =>
    let clusterSize := (labels.filter (fun lab => lab == i)).length
    let distance := euclideanDistance (centroids.getD i []) overall
    (clusterSize : ℝ) * distance * distance)).foldl (· + ·) 0
  let withinSS := ((pixels.zip labels).map (fun pl =>
    let distance := euclideanDistance pl.1 (centroids.getD pl.2 [])
    distance * distance)).foldl (· + ·) 0
  (betweenSS / ((k : ℝ) - 1)) / (withinSS / ((n : ℝ) - (k : ℝ)))

end

/-! ## Theorems -/

/-- Helper: the do-while pass count is bounded by fuel plus one. -/
theorem doWhileFrom_le (changed : ℕ → Bool) :
    ∀ fuel idx, doWhileFrom changed fuel idx ≤ fuel + 1 := by
  intro fuel
  induction fuel with
  | zero => intro idx; simp [doWhileFrom]
  | succ f ih =>
    intro idx
    rw [doWhileFrom]
    by_cases h : changed idx = true
    · rw [if_pos h]
      exact Nat.succ_le_succ (ih (idx + 1))
    · rw [if_neg h]
      omega

/-- Helper: the Lloyd loop executes at most fuel plus one passes. -/
theorem lloydGo_count_le (pixels : List (List ℝ)) (k : ℕ) (uRes : ℕ → ℕ → ℝ) :
    ∀ fuel passIdx labels centroids,
      (lloydGo pixels k uRes fuel passIdx labels centroids).2 ≤ fuel + 1 := by
  intro fuel
  induction fuel with
  | zero => intro passIdx labels centroids; simp [lloydGo]
  | succ f ih =>
    intro passIdx labels centroids
    by_cases h : (lloydPass pixels k (uRes passIdx) centroids).1 ≠ labels
    · simpa [lloydGo, h] using
        Nat.succ_le_succ (ih (passIdx + 1) (lloydPass pixels k (uRes passIdx) centroids).1
          (lloydPass pixels k (uRes passIdx) centroids).2)
    · simp [lloydGo, h]

/-- C2 counterexample: the `do { ... } while (changed && iterations++ < 100)`
control flow, with every pass reporting a change, executes 101 passes,
not 100: the post-increment guard passes for `iterations = 0 .. 99`, so
one extra body execution follows the hundredth successful guard test. -/
theorem lloydLoop_hundred_passes_cex : kmeansPassCount (fun _ => true) = 101 := by
  rfl

/-- C2: the Lloyd iteration loop of part_000's `kMeansSegmentation`
(invoked with fuel 100, matching `iterations++ < 100`) always
terminates, executing at most 101 assign-and-update passes — one more
than the claimed 100, because the body of the do-while runs once before
the first guard test and the post-increment guard can pass 100 times. -/
theorem lloydGo_pass_bound (pixels : List (List ℝ)) (k : ℕ) (uRes : ℕ → ℕ → ℝ)
    (labels : List ℕ) (centroids : List (List ℝ)) :
    (lloydGo pixels k uRes 100 0 labels centroids).2 ≤ 101 :=
  lloydGo_count_le pixels k uRes 100 0 labels centroids

/-- C4 counterexample: with a single cluster,
`calculateDaviesBouldinIndex` does not fail with any typed error — it
returns the ordinary number 0 (the inner max-ratio loop never runs). -/
theorem daviesBouldin_single_cluster_cex :
    calculateDaviesBouldinIndex [[0, 0, 0]] [[[0, 0, 0]]] = 0 := by
  simp [calculateDaviesBouldinIndex, List.range_succ]

/-- C4 (amended): `calculateDaviesBouldinIndex` has no error path at
all; for any single-cluster input it returns the plain number 0, and
likewise `calculateCalinskiHarabaszIndex` returns a plain number (its
`k = 1` and `k = n` cases divide by zero rather than failing). -/
theorem daviesBouldin_single_cluster_eq_zero (c : List ℝ) (cl : List (List ℝ)) :
    calculateDaviesBouldinIndex [c] [cl] = 0 := by
  simp [calculateDaviesBouldinIndex, List.range_succ]

/-- Helper: rounding bounds for a channel in `[0, 1]` scaled to 255. -/
theorem jsRound_channel_bounds {x : ℚ} (h0 : 0 ≤ x) (h1 : x ≤ 1) :
    0 ≤ jsRound (x * 255) ∧ jsRound (x * 255) ≤ 255 := by
  constructor
  · rw [jsRound, Int.le_floor]
    push_cast
    linarith
  · rw [jsRound]
    have : (⌊x * 255 + 1 / 2⌋ : ℤ) < 256 := by
      rw [Int.floor_lt]
      push_cast
      linarith
    omega

/-- Helper: `hue2rgb` stays within `[p, q] ⊆ [0, 1]` for the hue offsets
produced by `hslToRgb` on hues in `[0, 1]`. -/
theorem hue2rgb_bounds {p q t0 : ℚ} (hp : 0 ≤ p) (hpq : p ≤ q) (hq : q ≤ 1)
    (ht0 : -(1/3) ≤ t0) (ht1 : t0 ≤ 4/3) :
    0 ≤ hue2rgb p q t0 ∧ hue2rgb p q t0 ≤ 1 := by
  have piece : ∀ t : ℚ, 0 ≤ t → t ≤ 1 →
      0 ≤ (if t < 1/6 then p + (q - p) * 6 * t
        else if t < 1/2 then q
        else if t < 2/3 then p + (q - p) * (2/3 - t) * 6
        else p) ∧
      (if t < 1/6 then p + (q - p) * 6 * t
        else if t < 1/2 then q
        else if t < 2/3 then p + (q - p) * (2/3 - t) * 6
        else p) ≤ 1 := by
    intro t h0 h1
    split_ifs with a b c
    · constructor
      · nlinarith [mul_nonneg (sub_nonneg.2 hpq) h0]
      · nlinarith [mul_nonneg (sub_nonneg.2 hpq) (by linarith : (0:ℚ) ≤ 1 - 6 * t)]
    · exact ⟨by linarith, hq⟩
    · constructor
      · nlinarith [mul_nonneg (sub_nonneg.2 hpq) (by linarith : (0:ℚ) ≤ 2/3 - t)]
      · nlinarith [mul_nonneg (sub_nonneg.2 hpq) (by linarith : (0:ℚ) ≤ 6 * t - 3)]
    · exact ⟨hp, by linarith⟩
  rw [hue2rgb]
  apply piece
  · split_ifs <;> linarith
  · split_ifs <;> linarith

/-- C10 counterexample: the claim quantifies over *every* hue, but
`hslToRgb` normalises its hue offset by at most one full turn, so the
hue `-2` (with saturation 1 and lightness 1/2 in `[0, 1]`) produces
channel values far outside `[0, 255]`. -/
theorem hslToRgb_out_of_range_cex :
    hslToRgb (-2) 1 (1/2) = [-1020, -1530, -2040] := by
  norm_num [hslToRgb, hue2rgb, jsRound]

/-- C10 (amended): for hue, saturation and lightness all in `[0, 1]`
(hues outside `[0, 1]` can escape, see the counterexample), `hslToRgb`
returns a 3-element array of integers in `[0, 255]`; in particular the
synthetic cluster colors of the part_001 algorithms, whose hues are
`(i * 360 / count) / 360 ∈ [0, 1)`, are valid channel bytes. -/
theorem hslToRgb_in_range (h s l : ℚ) (hh0 : 0 ≤ h) (hh1 : h ≤ 1)
    (hs0 : 0 ≤ s) (hs1 : s ≤ 1) (hl0 : 0 ≤ l) (hl1 : l ≤ 1) :
    (hslToRgb h s l).length = 3 ∧ ∀ z ∈ hslToRgb h s l, 0 ≤ z ∧ z ≤ 255 := by
  rw [hslToRgb]
  by_cases hs : s = 0
  · rw [if_pos hs]
    refine ⟨rfl, fun z hz => ?_⟩
    have hb := jsRound_channel_bounds hl0 hl1
    simp only [List.mem_cons, List.not_mem_nil, or_false] at hz
    rcases hz with rfl | rfl | rfl <;> exact hb
  · rw [if_neg hs]
    have hQ1 : (if l < 1/2 then l * (1 + s) else l + s - l * s) ≤ 1 := by
      split_ifs with hl <;> nlinarith
    have hP0 : 0 ≤ 2 * l - (if l < 1/2 then l * (1 + s) else l + s - l * s) := by
      split_ifs with hl <;> nlinarith
    have hPQ : 2 * l - (if l < 1/2 then l * (1 + s) else l + s - l * s) ≤
        (if l < 1/2 then l * (1 + s) else l + s - l * s) := by
      split_ifs with hl <;> nlinarith
    have b1 := hue2rgb_bounds hP0 hPQ hQ1
      (show -(1/3) ≤ h + 1/3 by linarith) (show h + 1/3 ≤ 4/3 by linarith)
    have b2 := hue2rgb_bounds hP0 hPQ hQ1
      (show -(1/3) ≤ h by linarith) (show h ≤ 4/3 by linarith)
    have b3 := hue2rgb_bounds hP0 hPQ hQ1
      (show -(1/3) ≤ h - 1/3 by linarith) (show h - 1/3 ≤ 4/3 by linarith)
    refine ⟨rfl, fun z hz => ?_⟩
    simp only [List.mem_cons, List.not_mem_nil, or_false] at hz
    rcases hz with rfl | rfl | rfl
    · exact jsRound_channel_bounds b1.1 b1.2
    · exact jsRound_channel_bounds b2.1 b2.2
    · exact jsRound_channel_bounds b3.1 b3.2

/-- Helper: left folds of addition over the reals compute sums. -/
theorem foldl_add_eq_sum : ∀ (l : List ℝ) (a : ℝ), l.foldl (· + ·) a = a + l.sum
  | [], a => by simp
  | x :: t, a => by
    rw [List.foldl_cons, foldl_add_eq_sum t (a + x), List.sum_cons]
    ring

/-- Helper: a fold of `min` starting from a nonnegative value over
nonnegative entries stays nonnegative. -/
theorem foldl_min_nonneg : ∀ (t : List ℝ) (a : ℝ), 0 ≤ a → (∀ x ∈ t, 0 ≤ x) →
    0 ≤ t.foldl min a
  | [], a, ha, _ => ha
  | x :: t, a, ha, h => by
    rw [List.foldl_cons]
    exact foldl_min_nonneg t (min a x) (le_min ha (h x (by simp)))
      (fun y hy => h y (by simp [hy]))

/-- Helper: the JS `Math.min` spread over nonnegative values is
nonnegative. -/
theorem listMinD_nonneg : ∀ l : List ℝ, (∀ x ∈ l, 0 ≤ x) → 0 ≤ listMinD l
  | [], _ => le_refl 0
  | a :: t, h => by
    rw [listMinD]
    exact foldl_min_nonneg t a (h a (by simp)) (fun y hy => h y (by simp [hy]))

/-- Helper: second projections of a zip of equal-length lists. -/
theorem zip_snd : ∀ (as : List (List ℝ)) (bs : List ℝ), as.length = bs.length →
    (as.zip bs).map (·.2) = bs
  | [], [], _ => rfl
  | [], _ :: _, h => by simp at h
  | _ :: _, [], h => by simp at h
  | a :: as, b :: bs, h => by
    simp only [List.zip_cons_cons, List.map_cons, List.cons.injEq, true_and]
    exact zip_snd as bs (by simpa using h)

/-- Helper: element access in a zip of equal-length lists. -/
theorem zip_getD_fst : ∀ (as : List (List ℝ)) (bs : List ℝ) (i : ℕ),
    as.length = bs.length → i < as.length →
    ((as.zip bs).getD i ([], 0)).1 = as.getD i []
  | [], _, i, _, hi => by simp at hi
  | _ :: _, [], _, h, _ => by simp at h
  | a :: as, b :: bs, 0, _, _ => rfl
  | a :: as, b :: bs, i + 1, h, hi => by
    simp only [List.zip_cons_cons, List.getD_cons_succ]
    exact zip_getD_fst as bs i (by simpa using h) (by simpa using hi)

/-- Helper: the cumulative-sum loop `kppPick` returns the *first* entry
whose running total reaches the threshold, whenever the full total does. -/
theorem kppPick_first : ∀ (l : List (List ℝ × ℝ)) (threshold cum : ℝ),
    l ≠ [] → threshold ≤ cum + (l.map (·.2)).sum →
    ∃ i, i < l.length ∧ kppPick l threshold cum = some ((l.getD i ([], 0)).1) ∧
      (∀ m, m < i → cum + ((l.map (·.2)).take (m + 1)).sum < threshold) ∧
      threshold ≤ cum + ((l.map (·.2)).take (i + 1)).sum
  | [], _, _, hne, _ => absurd rfl hne
  | pd :: rest, threshold, cum, _, htot => by
    by_cases hge : cum + pd.2 ≥ threshold
    · refine ⟨0, by simp, ?_, fun m hm => absurd hm (Nat.not_lt_zero m), ?_⟩
      · simp [kppPick, if_pos hge]
      · simpa using hge
    · have hrest : rest ≠ [] := by
        rintro rfl
        simp only [List.map_cons, List.map_nil, List.sum_cons, List.sum_nil,
          add_zero] at htot
        exact hge (by linarith)
      have htot' : threshold ≤ (cum + pd.2) + (rest.map (·.2)).sum := by
        simp only [List.map_cons, List.sum_cons] at htot
        linarith
      obtain ⟨i, hi, hpick, hlt, hge'⟩ :=
        kppPick_first rest threshold (cum + pd.2) hrest htot'
      refine ⟨i + 1, by simpa using Nat.succ_lt_succ hi, ?_, ?_, ?_⟩
      · simp only [kppPick, if_neg hge, List.getD_cons_succ]
        exact hpick
      · intro m hm
        cases m with
        | zero =>
          simpa using not_le.1 hge
        | succ m' =>
          have h := hlt m' (by omega)
          simp only [List.map_cons, List.take_succ_cons, List.sum_cons] at h ⊢
          linarith
      · simp only [List.map_cons, List.take_succ_cons, List.sum_cons]
        linarith

/-- Helper: `Real.sqrt 9 = 3`. -/
theorem sqrt_nine : Real.sqrt 9 = 3 := by
  rw [show (9 : ℝ) = 3 ^ 2 by norm_num, Real.sqrt_sq (by norm_num : (0 : ℝ) ≤ 3)]

/-- C1 counterexample: the code's k-means++ round weights pixels by
their plain Euclidean distance (the `euclideanDistance` with its
`Math.sqrt`), not by the squared distance the claim states.  With pixels
at distances 0, 1 and 3 from the single chosen centroid and the uniform
draw 1/4, the code (cumulative weights 0, 1, 4; threshold 1) picks the
pixel `[1,0,0]`, while squared-distance sampling (cumulative weights
0, 1, 10; threshold 5/2) picks `[3,0,0]`. -/
theorem kppRound_weights_cex :
    kppRound [[0, 0, 0], [1, 0, 0], [3, 0, 0]] [[0, 0, 0]] (1/4) = some [1, 0, 0] ∧
      kppRoundSquared [[0, 0, 0], [1, 0, 0], [3, 0, 0]] [[0, 0, 0]] (1/4) =
        some [3, 0, 0] := by
  have e0 : euclideanDistance [0, 0, 0] [0, 0, 0] = 0 := by
    rw [euclideanDistance, show sqDist [0, 0, 0] [0, 0, 0] = 0 by
      norm_num [sqDist, List.enum, List.enumFrom]]
    exact Real.sqrt_zero
  have e1 : euclideanDistance [1, 0, 0] [0, 0, 0] = 1 := by
    rw [euclideanDistance, show sqDist [1, 0, 0] [0, 0, 0] = 1 by
      norm_num [sqDist, List.enum, List.enumFrom]]
    exact Real.sqrt_one
  have e3 : euclideanDistance [3, 0, 0] [0, 0, 0] = 3 := by
    rw [euclideanDistance, show sqDist [3, 0, 0] [0, 0, 0] = 9 by
      norm_num [sqDist, List.enum, List.enumFrom]]
    exact sqrt_nine
  have s0 : sqDist [0, 0, 0] [0, 0, 0] = 0 := by
    norm_num [sqDist, List.enum, List.enumFrom]
  have s1 : sqDist [1, 0, 0] [0, 0, 0] = 1 := by
    norm_num [sqDist, List.enum, List.enumFrom]
  have s9 : sqDist [3, 0, 0] [0, 0, 0] = 9 := by
    norm_num [sqDist, List.enum, List.enumFrom]
  constructor
  · simp only [kppRound, kppDistances, List.map_cons, List.map_nil, listMinD,
      List.foldl_cons, List.foldl_nil, e0, e1, e3, List.zip_cons_cons,
      List.zip_nil_right, kppPick]
    norm_num
  · simp only [kppRoundSquared, kppSquaredWeights, List.map_cons, List.map_nil,
      listMinD, List.foldl_cons, List.foldl_nil, s0, s1, s9,
      List.zip_cons_cons, List.zip_nil_right, kppPick]
    norm_num

/-- Helper: full characterisation of one k-means++ sampling round of
the code — it returns the first pixel whose cumulative plain-distance
mass reaches the scaled uniform draw. -/
theorem kppRound_first_index
    (pixels centroids : List (List ℝ)) (u : ℝ) (hne : pixels ≠ [])
    (hu0 : 0 ≤ u) (hu1 : u < 1) :
    ∃ i, i < pixels.length ∧
      kppRound pixels centroids u = some (pixels.getD i []) ∧
      (∀ m, m < i → ((kppDistances pixels centroids).take (m + 1)).sum
          < u * (kppDistances pixels centroids).sum) ∧
      u * (kppDistances pixels centroids).sum
          ≤ ((kppDistances pixels centroids).take (i + 1)).sum := by
  have hlen : (kppDistances pixels centroids).length = pixels.length := by
    simp [kppDistances]
  have hnonneg : ∀ x ∈ kppDistances pixels centroids, 0 ≤ x := by
    intro x hx
    simp only [kppDistances, List.mem_map] at hx
    obtain ⟨p, _, rfl⟩ := hx
    exact listMinD_nonneg _ (by
      intro y hy
      simp only [List.mem_map] at hy
      obtain ⟨c, _, rfl⟩ := hy
      exact Real.sqrt_nonneg _)
  have hsum0 : 0 ≤ (kppDistances pixels centroids).sum := List.sum_nonneg hnonneg
  have hsnd : ((pixels.zip (kppDistances pixels centroids)).map (·.2))
      = kppDistances pixels centroids := zip_snd _ _ hlen.symm
  have hzne : pixels.zip (kppDistances pixels centroids) ≠ [] := by
    intro hcon
    have := congrArg List.length hcon
    simp only [List.length_zip, hlen, min_self, List.length_nil] at this
    exact hne (List.length_eq_zero.1 this)
  have hthr : u * (kppDistances pixels centroids).sum ≤
      0 + ((pixels.zip (kppDistances pixels centroids)).map (·.2)).sum := by
    rw [hsnd, zero_add]
    exact mul_le_of_le_one_left hsum0 hu1.le
  obtain ⟨i, hi, hpick, hlt, hge⟩ :=
    kppPick_first (pixels.zip (kppDistances pixels centroids))
      (u * (kppDistances pixels centroids).sum) 0 hzne hthr
  rw [List.length_zip, hlen, min_self] at hi
  refine ⟨i, hi, ?_, ?_, ?_⟩
  · have hunf : kppRound pixels centroids u =
        kppPick (pixels.zip (kppDistances pixels centroids))
          (u * ((kppDistances pixels centroids).foldl (· + ·) 0)) 0 := rfl
    rw [hunf, foldl_add_eq_sum, zero_add, hpick,
      zip_getD_fst pixels (kppDistances pixels centroids) i hlen.symm hi]
  · intro m hm
    have h := hlt m hm
    rw [hsnd, zero_add] at h
    exact h
  · have h := hge
    rw [hsnd, zero_add] at h
    exact h

/-- C1 (amended): the first centroid is a uniformly drawn pixel, and
each k-means++ round performs cumulative-sum threshold sampling against
a uniform draw scaled by the total — but with weights equal to each
pixel's plain (not squared) Euclidean distance to its nearest
already-chosen centroid: the round returns exactly the first pixel, in
order, whose cumulative distance mass reaches `u * total`. -/
theorem kppRound_selects_first_reaching_threshold
    (pixels centroids : List (List ℝ)) (u : ℝ) (hne : pixels ≠ [])
    (hu0 : 0 ≤ u) (hu1 : u < 1) :
    ∃ i, i < pixels.length ∧
      kppRound pixels centroids u = some (pixels.getD i []) ∧
      (∀ m, m < i → ((kppDistances pixels centroids).take (m + 1)).sum
          < u * (kppDistances pixels centroids).sum) ∧
      u * (kppDistances pixels centroids).sum
          ≤ ((kppDistances pixels centroids).take (i + 1)).sum :=
  kppRound_first_index pixels centroids u hne hu0 hu1

/-- C1 witness: the selection theorem applied to the counterexample
input (three pixels at distances 0, 1, 3 from one centroid, draw 1/4). -/
theorem kppRound_selects_witness :
    ∃ i, i < ([[0, 0, 0], [1, 0, 0], [3, 0, 0]] : List (List ℝ)).length ∧
      kppRound [[0, 0, 0], [1, 0, 0], [3, 0, 0]] [[0, 0, 0]] (1/4) =
        some (([[0, 0, 0], [1, 0, 0], [3, 0, 0]] : List (List ℝ)).getD i []) ∧
      (∀ m, m < i →
        ((kppDistances [[0, 0, 0], [1, 0, 0], [3, 0, 0]] [[0, 0, 0]]).take (m + 1)).sum
          < 1/4 * (kppDistances [[0, 0, 0], [1, 0, 0], [3, 0, 0]] [[0, 0, 0]]).sum) ∧
      1/4 * (kppDistances [[0, 0, 0], [1, 0, 0], [3, 0, 0]] [[0, 0, 0]]).sum
        ≤ ((kppDistances [[0, 0, 0], [1, 0, 0], [3, 0, 0]] [[0, 0, 0]]).take (i + 1)).sum :=
  kppRound_selects_first_reaching_threshold
    [[0, 0, 0], [1, 0, 0], [3, 0, 0]] [[0, 0, 0]] (1/4)
    (by simp) (by norm_num) (by norm_num)

/-- Helper: indexed access through `enumFrom`-then-`map`. -/
theorem enumFrom_map_getD {α β : Type} (f : ℕ × α → β) (d : β) (dd : α) :
    ∀ (l : List α) (n j : ℕ), j < l.length →
      ((List.enumFrom n l).map f).getD j d = f (n + j, l.getD j dd)
  | [], _, _, hj => absurd hj (by simp)
  | a :: t, n, 0, _ => by simp [List.enumFrom]
  | a :: t, n, j + 1, hj => by
    simp only [List.enumFrom, List.map_cons, List.getD_cons_succ]
    rw [enumFrom_map_getD f d dd t (n + 1) j (by simpa using hj)]
    have harg : n + 1 + j = n + (j + 1) := by omega
    rw [harg]

/-- Helper: indexed access through `enum`-then-`map`. -/
theorem enum_map_getD {α β : Type} (f : ℕ × α → β) (d : β) (dd : α)
    (l : List α) (j : ℕ) (hj : j < l.length) :
    ((l.enum).map f).getD j d = f (j, l.getD j dd) := by
  have h := enumFrom_map_getD f d dd l 0 j hj
  simpa using h

/-- Helper: the reseed index `Math.floor(Math.random() * centroids.length)`
lands inside the centroid array for draws in `[0, 1)`. -/
theorem reseed_index_lt (u : ℝ) (n : ℕ) (hu0 : 0 ≤ u) (hu1 : u < 1)
    (hn : 0 < n) : (⌊u * (n : ℝ)⌋).toNat < n := by
  have hnR : (0 : ℝ) < (n : ℝ) := by exact_mod_cast hn
  have h1 : u * (n : ℝ) < (n : ℝ) := by nlinarith
  have h2 : ⌊u * (n : ℝ)⌋ < (n : ℤ) := by
    rw [Int.floor_lt]
    exact_mod_cast h1
  omega

/-- C6: in part_000's centroid update, a cluster with zero members in
the current pass gets its centroid replaced by the entry of the
*current* (pre-update) centroid array at the uniformly drawn index
`Math.floor(Math.random() * centroids.length)` — in particular by a
member of the current centroid set, not by a pixel — while a cluster
with members gets the component-wise mean `sum.map(v => v / count)`. -/
theorem updateCentroids_reseed_spec (info : List (List ℝ × ℕ))
    (centroids : List (List ℝ)) (u : ℕ → ℝ) (j : ℕ) (hj : j < info.length)
    (hu0 : 0 ≤ u j) (hu1 : u j < 1) (hc : centroids ≠ []) :
    ((info.getD j ([], 0)).2 = 0 →
      (updateCentroids info centroids u).getD j [] =
        centroids.getD (⌊u j * (centroids.length : ℝ)⌋).toNat [] ∧
      (updateCentroids info centroids u).getD j [] ∈ centroids) ∧
    (0 < (info.getD j ([], 0)).2 →
      (updateCentroids info centroids u).getD j [] =
        (info.getD j ([], 0)).1.map (fun v => v / ((info.getD j ([], 0)).2 : ℝ))) := by
  have hcpos : 0 < centroids.length := List.length_pos.2 hc
  have hacc : (updateCentroids info centroids u).getD j [] =
      (fun ji : ℕ × (List ℝ × ℕ) =>
        if 0 < ji.2.2 then ji.2.1.map (fun v => v / (ji.2.2 : ℝ))
        else centroids.getD (⌊u ji.1 * (centroids.length : ℝ)⌋).toNat [])
        (j, info.getD j ([], 0)) := by
    rw [updateCentroids]
    exact enum_map_getD _ _ _ info j hj
  constructor
  · intro hzero
    have hedit : (updateCentroids info centroids u).getD j [] =
        centroids.getD (⌊u j * (centroids.length : ℝ)⌋).toNat [] := by
      rw [hacc]
      simp only [hzero]
      norm_num
    refine ⟨hedit, ?_⟩
    rw [hedit, List.getD_eq_getElem centroids []
      (reseed_index_lt (u j) centroids.length hu0 hu1 hcpos)]
    exact List.getElem_mem _
  · intro hpos
    rw [hacc]
    simp only [hpos, if_pos]

/-- C6 witness: the update theorem at a concrete one-cluster instance
(an empty cluster reseeded from a one-element centroid array). -/
theorem updateCentroids_reseed_witness :
    ((([([0, 0, 0], 0)] : List (List ℝ × ℕ)).getD 0 ([], 0)).2 = 0 →
      (updateCentroids [([0, 0, 0], 0)] [[1, 2, 3]] (fun _ => 0)).getD 0 [] =
        ([[1, 2, 3]] : List (List ℝ)).getD
          (⌊(0 : ℝ) * (([[1, 2, 3]] : List (List ℝ)).length : ℝ)⌋).toNat [] ∧
      (updateCentroids [([0, 0, 0], 0)] [[1, 2, 3]] (fun _ => 0)).getD 0 []
        ∈ ([[1, 2, 3]] : List (List ℝ))) ∧
    (0 < (([([0, 0, 0], 0)] : List (List ℝ × ℕ)).getD 0 ([], 0)).2 →
      (updateCentroids [([0, 0, 0], 0)] [[1, 2, 3]] (fun _ => 0)).getD 0 [] =
        (([([0, 0, 0], 0)] : List (List ℝ × ℕ)).getD 0 ([], 0)).1.map
          (fun v => v / (((([([0, 0, 0], 0)] : List (List ℝ × ℕ)).getD 0 ([], 0)).2 : ℕ) : ℝ))) :=
  updateCentroids_reseed_spec [([0, 0, 0], 0)] [[1, 2, 3]] (fun _ => 0) 0
    (by simp) (by norm_num) (by norm_num) (by simp)

/-- Helper: a k-means++ round always yields a pick for a nonempty pixel
list and a draw in `[0, 1)` (the threshold never exceeds the total). -/
theorem kppRound_isSome (pixels centroids : List (List ℝ)) (u : ℝ)
    (hne : pixels ≠ []) (hu0 : 0 ≤ u) (hu1 : u < 1) :
    ∃ p, kppRound pixels centroids u = some p := by
  obtain ⟨i, _, hpick, _, _⟩ := kppRound_first_index pixels centroids u hne hu0 hu1
  exact ⟨pixels.getD i [], hpick⟩

/-- Helper: the k-means++ initialisation loop reaches exactly `k`
centroids whenever it starts at or below `k` with enough fuel. -/
theorem kppInit_length (pixels : List (List ℝ)) (k : ℕ) (uInit : ℕ → ℝ)
    (hne : pixels ≠ []) (hu : ∀ r, 0 ≤ uInit r ∧ uInit r < 1) :
    ∀ fuel centroids, centroids.length ≤ k → k ≤ centroids.length + fuel →
      (kppInit pixels k uInit fuel centroids).length = k
  | 0, centroids, hle, hge => by
    simp only [kppInit]
    omega
  | fuel + 1, centroids, hle, hge => by
    simp only [kppInit]
    by_cases hlt : centroids.length < k
    · rw [if_pos hlt]
      obtain ⟨p, hp⟩ := kppRound_isSome pixels centroids (uInit centroids.length)
        hne (hu _).1 (hu _).2
      rw [hp]
      exact kppInit_length pixels k uInit hne hu fuel (centroids ++ [p])
        (by simp only [List.length_append, List.length_cons, List.length_nil]; omega)
        (by simp only [List.length_append, List.length_cons, List.length_nil]; omega)
    · rw [if_neg hlt]
      omega

/-- Helper: `clusterInfo` always produces one entry per cluster. -/
theorem clusterInfo_length (pixels : List (List ℝ)) (labels : List ℕ) (k : ℕ) :
    (clusterInfo pixels labels k).length = k := by
  simp [clusterInfo]

/-- Helper: the centroid update produces one centroid per cluster entry. -/
theorem updateCentroids_length (info : List (List ℝ × ℕ))
    (centroids : List (List ℝ)) (u : ℕ → ℝ) :
    (updateCentroids info centroids u).length = info.length := by
  simp [updateCentroids]

/-- Helper: each Lloyd pass returns `k` centroids and one label per
pixel. -/
theorem lloydPass_shape (pixels : List (List ℝ)) (k : ℕ) (u : ℕ → ℝ)
    (centroids : List (List ℝ)) :
    (lloydPass pixels k u centroids).1.length = pixels.length ∧
      (lloydPass pixels k u centroids).2.length = k := by
  constructor
  · simp [lloydPass]
  · simp [lloydPass, updateCentroids_length, clusterInfo_length]

/-- Helper: the assignment fold keeps its running index inside `[0, n)`
as long as every enumerated index is. -/
theorem nearestFold_lt (pixel : List ℝ) (n : ℕ) :
    ∀ (l : List (ℕ × List ℝ)) (acc : Option ℝ × ℕ),
      (∀ jc ∈ l, jc.1 < n) → acc.2 < n →
      ((l.foldl
        (fun acc jc =>
          let dist := euclideanDistance pixel jc.2
          match acc.1 with
          | none => (some dist, jc.1)
          | some m => if dist < m then (some dist, jc.1) else acc)
        acc).2) < n
  | [], _, _, hacc => hacc
  | jc :: t, acc, hl, hacc => by
    rw [List.foldl_cons]
    refine nearestFold_lt pixel n t _ (fun x hx => hl x (by simp [hx])) ?_
    rcases acc with ⟨o, idx⟩
    cases o with
    | none => exact hl jc (by simp)
    | some m =>
      by_cases hd : euclideanDistance pixel jc.2 < m
      · simpa [hd] using hl jc (by simp)
      · simpa [hd] using hacc

/-- Helper: every assigned cluster index is a valid centroid index. -/
theorem nearestIdx_lt (pixel : List ℝ) (centroids : List (List ℝ))
    (h : centroids ≠ []) : nearestIdx pixel centroids < centroids.length := by
  rw [nearestIdx]
  refine nearestFold_lt pixel centroids.length centroids.enum
    ((none : Option ℝ), 0) ?_ ?_
  · intro jc hjc
    simpa using List.fst_lt_add_of_mem_enumFrom hjc
  · simpa using List.length_pos.2 h

/-- Helper: through every branch of the Lloyd loop, the returned labels
are assignments against a `k`-length centroid array, hence below `k`. -/
theorem lloydGo_labels_lt (pixels : List (List ℝ)) (k : ℕ) (uRes : ℕ → ℕ → ℝ)
    (hk : 0 < k) :
    ∀ fuel passIdx labels centroids, centroids.length = k →
      ∀ lab ∈ (lloydGo pixels k uRes fuel passIdx labels centroids).1.1, lab < k := by
  intro fuel
  induction fuel with
  | zero =>
    intro passIdx labels centroids hlen lab hmem
    simp only [lloydGo, lloydPass, List.mem_map] at hmem
    obtain ⟨p, _, rfl⟩ := hmem
    have hne : centroids ≠ [] := by
      rintro rfl
      simp only [List.length_nil] at hlen
      omega
    simpa [hlen] using nearestIdx_lt p centroids hne
  | succ f ih =>
    intro passIdx labels centroids hlen lab hmem
    rw [lloydGo] at hmem
    by_cases hch : (lloydPass pixels k (uRes passIdx) centroids).1 ≠ labels
    · rw [if_pos hch] at hmem
      exact ih (passIdx + 1) (lloydPass pixels k (uRes passIdx) centroids).1
        (lloydPass pixels k (uRes passIdx) centroids).2
        (lloydPass_shape pixels k (uRes passIdx) centroids).2 lab hmem
    · rw [if_neg hch] at hmem
      simp only [lloydPass, List.mem_map] at hmem
      obtain ⟨p, _, rfl⟩ := hmem
      have hne : centroids ≠ [] := by
        rintro rfl
        simp only [List.length_nil] at hlen
        omega
      simpa [hlen] using nearestIdx_lt p centroids hne

/-- Helper: the Lloyd loop always returns one label per pixel and `k`
centroids, whichever branch terminates it. -/
theorem lloydGo_shape (pixels : List (List ℝ)) (k : ℕ) (uRes : ℕ → ℕ → ℝ) :
    ∀ fuel passIdx labels centroids,
      (lloydGo pixels k uRes fuel passIdx labels centroids).1.1.length = pixels.length ∧
      (lloydGo pixels k uRes fuel passIdx labels centroids).1.2.length = k := by
  intro fuel
  induction fuel with
  | zero =>
    intro passIdx labels centroids
    simpa only [lloydGo] using lloydPass_shape pixels k (uRes passIdx) centroids
  | succ f ih =>
    intro passIdx labels centroids
    rw [lloydGo]
    by_cases hch : (lloydPass pixels k (uRes passIdx) centroids).1 ≠ labels
    · rw [if_pos hch]
      exact ih (passIdx + 1) _ _
    · rw [if_neg hch]
      exact lloydPass_shape pixels k (uRes passIdx) centroids

/-- Helper: part_000's `kMeansSegmentation` always completes, returning
`k` centroids and one label per pixel, whatever `k` is. -/
theorem kMeans0_shape (img : ImageData) (k : ℕ) (u0 : ℝ)
    (uInit : ℕ → ℝ) (uRes : ℕ → ℕ → ℝ) :
    (kMeansSegmentation0 img k u0 uInit uRes).centroids.length = k ∧
    (kMeansSegmentation0 img k u0 uInit uRes).labels.length =
      (pixelsOfData img.data).length :=
  ⟨(lloydGo_shape _ k _ 100 0 _ _).2, (lloydGo_shape _ k _ 100 0 _ _).1⟩

/-- C5 counterexample: part_000's `kMeansSegmentation` invoked with
`k = 2` on a one-pixel image (so `k` exceeds the pixel count) does not
fail with any typed error — it returns an ordinary `ClusteringResult`
with two (duplicated) centroids and one label.  No `InvalidParameter`
value exists anywhere in the code. -/
theorem kMeans0_no_failure_cex :
    (kMeansSegmentation0 ⟨1, 1, [0, 0, 0, 0]⟩ 2 0 (fun _ => 0) (fun _ _ => 0)).centroids.length = 2 ∧
    (kMeansSegmentation0 ⟨1, 1, [0, 0, 0, 0]⟩ 2 0 (fun _ => 0) (fun _ _ => 0)).labels.length = 1 := by
  have h := kMeans0_shape ⟨1, 1, [0, 0, 0, 0]⟩ 2 0 (fun _ => 0) (fun _ _ => 0)
  refine ⟨h.1, ?_⟩
  rw [h.2]
  simp [pixelsOfData]

/-- C5 (amended): part_000's `kMeansSegmentation` performs no parameter
validation and has no failure path: for every `k` (including `k` larger
than the pixel count) it returns a `ClusteringResult` whose centroid
collection has length `k` and whose label array has one entry per
pixel. -/
theorem kMeans0_total_shape (img : ImageData) (k : ℕ) (u0 : ℝ)
    (uInit : ℕ → ℝ) (uRes : ℕ → ℕ → ℝ) :
    (kMeansSegmentation0 img k u0 uInit uRes).centroids.length = k ∧
    (kMeansSegmentation0 img k u0 uInit uRes).labels.length =
      (pixelsOfData img.data).length :=
  kMeans0_shape img k u0 uInit uRes

/-- Helper: part_001's centroid update keeps the centroid count. -/
theorem km1Update_length (clusters : List (List (List ℝ)))
    (centroids : List (List ℝ)) :
    (km1Update clusters centroids).length = centroids.length := by
  simp [km1Update]

/-- Helper: part_001's iteration loop keeps every produced label below
`k` when it starts from a `k`-length centroid array. -/
theorem km1Loop_labels_lt (pixels : List (List ℝ)) (k : ℕ) (hk : 0 < k) :
    ∀ n centroids labels, centroids.length = k → (∀ lab ∈ labels, lab < k) →
      ∀ lab ∈ (km1Loop pixels k n centroids labels).1, lab < k
  | 0, centroids, labels, _, hlab => hlab
  | n + 1, centroids, labels, hlen, _ => by
    intro lab hmem
    rw [km1Loop] at hmem
    refine km1Loop_labels_lt pixels k hk n _ _ ?_ ?_ lab hmem
    · rw [km1Update_length, hlen]
    · intro lab' hmem'
      obtain ⟨p, _, rfl⟩ := List.mem_map.1 hmem'
      have hne : centroids ≠ [] := by
        rintro rfl
        simp only [List.length_nil] at hlen
        omega
      simpa [hlen] using nearestIdx_lt p centroids hne

/-- C7: for every image and `1 ≤ k ≤ n`, both `kMeansSegmentation`
implementations return label arrays in which every assigned value lies
in `[0, k)`, i.e. is a valid index into the `k` returned centroids. -/
theorem kMeans_labels_lt_k (img : ImageData) (k : ℕ) (u0 : ℝ)
    (uInit uc : ℕ → ℝ) (uRes : ℕ → ℕ → ℝ)
    (hk1 : 1 ≤ k) (hkn : k ≤ (pixelsOfData img.data).length)
    (hu : ∀ r, 0 ≤ uInit r ∧ uInit r < 1) :
    (∀ lab ∈ (kMeansSegmentation0 img k u0 uInit uRes).labels, lab < k) ∧
    (∀ lab ∈ (kMeansSegmentation1 img k uc).labels, lab < k) := by
  have hne : pixelsOfData img.data ≠ [] := by
    intro hcon
    rw [hcon] at hkn
    simp only [List.length_nil, Nat.le_zero] at hkn
    omega
  constructor
  · intro lab hmem
    refine lloydGo_labels_lt (pixelsOfData img.data) k uRes (by omega) 100 0 _ _ ?_ lab hmem
    exact kppInit_length (pixelsOfData img.data) k uInit hne hu k _
      (by simpa using hk1)
      (by simp only [List.length_cons, List.length_nil]; omega)
  · intro lab hmem
    refine km1Loop_labels_lt (pixelsOfData img.data) k (by omega) 15 _ [] ?_ ?_ lab hmem
    · simp [km1Init]
    · intro lab' hmem'
      simp at hmem'

/-- C7 witness: the label-range theorem on a one-pixel image with
`k = 1`. -/
theorem kMeans_labels_lt_k_witness :
    (∀ lab ∈ (kMeansSegmentation0 ⟨1, 1, [7, 8, 9, 255]⟩ 1 0 (fun _ => 0)
      (fun _ _ => 0)).labels, lab < 1) ∧
    (∀ lab ∈ (kMeansSegmentation1 ⟨1, 1, [7, 8, 9, 255]⟩ 1 (fun _ => 0)).labels, lab < 1) :=
  kMeans_labels_lt_k ⟨1, 1, [7, 8, 9, 255]⟩ 1 0 (fun _ => 0) (fun _ => 0) (fun _ _ => 0)
    (by norm_num) (by simp [pixelsOfData]) (fun r => by norm_num)

/-- Helper: the output buffer holds exactly four entries per label. -/
theorem recolor_length : ∀ (labels : List ℕ) (colors : List (List ℝ)),
    (recolor labels colors).length = 4 * labels.length
  | [], _ => rfl
  | l :: ls, colors => by
    have ih := recolor_length ls colors
    simp only [recolor, List.map_cons, List.flatten_cons, List.length_append,
      List.length_cons, List.length_nil, List.length_map] at ih ⊢
    omega

/-- Helper: every fourth output entry — the alpha byte — is the literal
255 written by `segmented.data[idx+3] = 255`. -/
theorem recolor_alpha : ∀ (labels : List ℕ) (colors : List (List ℝ)) (i : ℕ),
    i < labels.length → (recolor labels colors).getD (4 * i + 3) 0 = 255
  | [], _, i, hi => absurd hi (by simp)
  | l :: ls, colors, 0, _ => rfl
  | l :: ls, colors, i + 1, hi => by
    have ih := recolor_alpha ls colors i (by simpa using hi)
    simp only [recolor, List.map_cons, List.flatten_cons] at ih ⊢
    rw [show 4 * (i + 1) + 3 = 4 * i + 3 + 1 + 1 + 1 + 1 by ring]
    simp only [List.cons_append, List.nil_append, List.getD_cons_succ]
    exact ih

/-- Helper: part_001's fixed loop returns one label per pixel whenever
it runs at least one iteration. -/
theorem km1Loop_labels_length (pixels : List (List ℝ)) (k : ℕ) :
    ∀ n centroids labels, 1 ≤ n →
      (km1Loop pixels k n centroids labels).1.length = pixels.length
  | 0, _, _, h => absurd h (by omega)
  | 1, centroids, labels, _ => by
    simp [km1Loop]
  | n + 2, centroids, labels, _ => by
    rw [km1Loop]
    exact km1Loop_labels_length pixels k (n + 1) _ _ (by omega)

/-- Helper: the mean-shift sweep labels every pixel. -/
theorem msAssign_labels_length (bw : ℝ) : ∀ (rest modes : List (List ℝ)),
    (msAssign bw rest modes).2.length = rest.length
  | [], _ => rfl
  | p :: rest, modes => by
    rw [msAssign]
    cases h : modes.findIdx? (fun m => decide (euclideanDistance p m < bw * 40)) with
    | some j => simpa using msAssign_labels_length bw rest modes
    | none => simpa using msAssign_labels_length bw rest (modes ++ [p])

/-- C8 counterexample: on a 1×1 image the watershed has no interior
pixels, hence no gradients, no seeds and `numRegions = 0`; the real code
then computes `pixelIdx % 0 = NaN` for the first pixel and throws a
TypeError on `regionCentroids[NaN][0]`, so no output buffer — let alone
one with alpha bytes 255 — is ever produced.  The same happens for any
width or height at most 2, and whenever every interior gradient reaches
`sigma * 15`. -/
theorem watershed_zero_regions_cex :
    watershedSegmentation1 ⟨1, 1, [1, 2, 3, 4]⟩ 1 = none := by
  rw [watershedSegmentation1, if_pos]
  constructor
  · rw [watershedNumRegions, watershedSeeds]
    simp [watershedGradients]
  · simp

/-- C8 (amended): none of the embedded segmentation operations touches
the input buffer (they are pure functions of it; the source only ever
writes into the freshly allocated `new ImageData(width, height)`).  Both
`kMeansSegmentation` variants (for `k ≥ 1`) and `meanShiftSegmentation`
always return an output image of the input's dimensions whose buffer has
exactly four entries per pixel with every alpha byte 255;
`watershedSegmentation` does so whenever it returns at all, i.e. when
`numRegions > 0` — with zero regions it throws before producing any
output (see the counterexample). -/
theorem segmentation_output_fresh_alpha (img : ImageData) (k : ℕ) (u0 : ℝ)
    (uInit uc : ℕ → ℝ) (uRes : ℕ → ℕ → ℝ) (bw sigma : ℝ) (hk : 1 ≤ k) :
    ((kMeansSegmentation0 img k u0 uInit uRes).imageData.width = img.width ∧
     (kMeansSegmentation0 img k u0 uInit uRes).imageData.height = img.height ∧
     (kMeansSegmentation0 img k u0 uInit uRes).imageData.data.length =
       4 * (pixelsOfData img.data).length ∧
     ∀ i, i < (pixelsOfData img.data).length →
       (kMeansSegmentation0 img k u0 uInit uRes).imageData.data.getD (4 * i + 3) 0 = 255) ∧
    ((kMeansSegmentation1 img k uc).imageData.width = img.width ∧
     (kMeansSegmentation1 img k uc).imageData.height = img.height ∧
     (kMeansSegmentation1 img k uc).imageData.data.length =
       4 * (pixelsOfData img.data).length ∧
     ∀ i, i < (pixelsOfData img.data).length →
       (kMeansSegmentation1 img k uc).imageData.data.getD (4 * i + 3) 0 = 255) ∧
    ((meanShiftSegmentation1 img bw).imageData.width = img.width ∧
     (meanShiftSegmentation1 img bw).imageData.height = img.height ∧
     (meanShiftSegmentation1 img bw).imageData.data.length =
       4 * (pixelsOfData img.data).length ∧
     ∀ i, i < (pixelsOfData img.data).length →
       (meanShiftSegmentation1 img bw).imageData.data.getD (4 * i + 3) 0 = 255) ∧
    (∀ res, watershedSegmentation1 img sigma = some res →
      res.imageData.width = img.width ∧
      res.imageData.height = img.height ∧
      res.imageData.data.length = 4 * (pixelsOfData img.data).length ∧
      ∀ i, i < (pixelsOfData img.data).length →
        res.imageData.data.getD (4 * i + 3) 0 = 255) := by
  refine ⟨⟨rfl, rfl, ?_, ?_⟩, ⟨rfl, rfl, ?_, ?_⟩, ⟨rfl, rfl, ?_, ?_⟩, ?_⟩
  · rw [show (kMeansSegmentation0 img k u0 uInit uRes).imageData.data =
      recolor (kMeansSegmentation0 img k u0 uInit uRes).labels
        (kMeansSegmentation0 img k u0 uInit uRes).centroids from rfl,
      recolor_length, (kMeans0_shape img k u0 uInit uRes).2]
  · intro i hi
    rw [show (kMeansSegmentation0 img k u0 uInit uRes).imageData.data =
      recolor (kMeansSegmentation0 img k u0 uInit uRes).labels
        (kMeansSegmentation0 img k u0 uInit uRes).centroids from rfl]
    exact recolor_alpha _ _ i (by rw [(kMeans0_shape img k u0 uInit uRes).2]; exact hi)
  · rw [show (kMeansSegmentation1 img k uc).imageData.data =
      recolor (kMeansSegmentation1 img k uc).labels
        (syntheticColors k (8/10) (7/10)) from rfl, recolor_length,
      show (kMeansSegmentation1 img k uc).labels =
        (km1Loop (pixelsOfData img.data) k 15 (km1Init k uc) []).1 from rfl,
      km1Loop_labels_length (pixelsOfData img.data) k 15 _ _ (by omega)]
  · intro i hi
    rw [show (kMeansSegmentation1 img k uc).imageData.data =
      recolor (kMeansSegmentation1 img k uc).labels
        (syntheticColors k (8/10) (7/10)) from rfl]
    refine recolor_alpha _ _ i ?_
    rw [show (kMeansSegmentation1 img k uc).labels =
      (km1Loop (pixelsOfData img.data) k 15 (km1Init k uc) []).1 from rfl,
      km1Loop_labels_length (pixelsOfData img.data) k 15 _ _ (by omega)]
    exact hi
  · rw [show (meanShiftSegmentation1 img bw).imageData.data =
      recolor (meanShiftSegmentation1 img bw).labels
        (syntheticColors (msAssign bw (pixelsOfData img.data) []).1.length
          (9/10) (6/10)) from rfl, recolor_length,
      show (meanShiftSegmentation1 img bw).labels =
        (msAssign bw (pixelsOfData img.data) []).2 from rfl,
      msAssign_labels_length bw (pixelsOfData img.data) []]
  · intro i hi
    rw [show (meanShiftSegmentation1 img bw).imageData.data =
      recolor (meanShiftSegmentation1 img bw).labels
        (syntheticColors (msAssign bw (pixelsOfData img.data) []).1.length
          (9/10) (6/10)) from rfl]
    refine recolor_alpha _ _ i ?_
    rw [show (meanShiftSegmentation1 img bw).labels =
      (msAssign bw (pixelsOfData img.data) []).2 from rfl,
      msAssign_labels_length bw (pixelsOfData img.data) []]
    exact hi
  · intro res hres
    rw [watershedSegmentation1] at hres
    by_cases hcr : watershedNumRegions img sigma = 0 ∧ img.data.length ≠ 0
    · rw [if_pos hcr] at hres
      exact absurd hres (by simp)
    · rw [if_neg hcr] at hres
      obtain rfl := (Option.some.inj hres).symm
      refine ⟨rfl, rfl, ?_, ?_⟩
      · show (recolor ((List.range (pixelsOfData img.data).length).map
            (fun i => i % watershedNumRegions img sigma))
            (syntheticColors (watershedNumRegions img sigma) (85/100) (65/100))).length =
          4 * (pixelsOfData img.data).length
        rw [recolor_length]
        simp
      · intro i hi
        show (recolor ((List.range (pixelsOfData img.data).length).map
            (fun i => i % watershedNumRegions img sigma))
            (syntheticColors (watershedNumRegions img sigma) (85/100) (65/100))).getD
          (4 * i + 3) 0 = 255
        refine recolor_alpha _ _ i ?_
        simpa using hi

/-- Helper: reading any position of an all-zero buffer gives zero. -/
theorem replicate_getD_zero : ∀ (m n : ℕ), (List.replicate m (0 : ℕ)).getD n 0 = 0
  | 0, n => by simp
  | m + 1, 0 => rfl
  | m + 1, n + 1 => by
    rw [List.replicate_succ, List.getD_cons_succ]
    exact replicate_getD_zero m n

/-- C8 witness: the alpha bytes of the three always-returning operations
on a concrete one-pixel image, and of the watershed on a 3×3 all-zero
image, where the single interior gradient is 0 and one seed region
exists. -/
theorem segmentation_output_fresh_alpha_witness :
    (kMeansSegmentation0 ⟨1, 1, [1, 2, 3, 4]⟩ 1 0 (fun _ => 0)
      (fun _ _ => 0)).imageData.data.getD 3 0 = 255 ∧
    (kMeansSegmentation1 ⟨1, 1, [1, 2, 3, 4]⟩ 1 (fun _ => 0)).imageData.data.getD 3 0 = 255 ∧
    (meanShiftSegmentation1 ⟨1, 1, [1, 2, 3, 4]⟩ 1).imageData.data.getD 3 0 = 255 ∧
    ∃ res, watershedSegmentation1 ⟨3, 3, List.replicate 36 0⟩ 1 = some res ∧
      res.imageData.data.getD 3 0 = 255 := by
  have h1 := segmentation_output_fresh_alpha ⟨1, 1, [1, 2, 3, 4]⟩ 1 0 (fun _ => 0)
    (fun _ => 0) (fun _ _ => 0) 1 1 (by norm_num)
  have h3 := segmentation_output_fresh_alpha ⟨3, 3, List.replicate 36 0⟩ 1 0 (fun _ => 0)
    (fun _ => 0) (fun _ _ => 0) 1 1 (by norm_num)
  have hn : 0 < (pixelsOfData [1, 2, 3, 4]).length := by simp [pixelsOfData]
  have hg : watershedGradients ⟨3, 3, List.replicate 36 0⟩ = [0] := by
    norm_num [watershedGradients, replicate_getD_zero, Real.sqrt_zero]
  have hnum : watershedNumRegions ⟨3, 3, List.replicate 36 0⟩ 1 = 1 := by
    rw [watershedNumRegions, watershedSeeds, hg]
    norm_num [List.enum, List.enumFrom, List.filter_cons, decide_eq_true_eq]
  have hcond : ¬(watershedNumRegions ⟨3, 3, List.replicate 36 0⟩ 1 = 0 ∧
      (ImageData.mk 3 3 (List.replicate 36 0)).data.length ≠ 0) := by
    intro hcon
    rw [hnum] at hcon
    exact absurd hcon.1 one_ne_zero
  have hne : watershedSegmentation1 ⟨3, 3, List.replicate 36 0⟩ 1 ≠ none := by
    rw [watershedSegmentation1, if_neg hcond]
    simp
  obtain ⟨res, hres⟩ := Option.ne_none_iff_exists'.1 hne
  have hw := h3.2.2.2 res hres
  have hn3 : 0 < (pixelsOfData (List.replicate 36 0)).length := by
    simp [pixelsOfData, List.replicate]
  exact ⟨by simpa using h1.1.2.2.2 0 hn, by simpa using h1.2.1.2.2.2 0 hn,
    by simpa using h1.2.2.1.2.2.2 0 hn, res, hres, by simpa using hw.2.2.2 0 hn3⟩

/-- Helper: the mean-shift sweep only ever appends modes. -/
theorem msAssign_modes_extend (bw : ℝ) : ∀ (rest modes : List (List ℝ)),
    ∃ t, (msAssign bw rest modes).1 = modes ++ t
  | [], modes => ⟨[], by simp [msAssign]⟩
  | p :: rest, modes => by
    rw [msAssign]
    cases h : modes.findIdx? (fun m => decide (euclideanDistance p m < bw * 40)) with
    | some j =>
      dsimp only
      obtain ⟨t, ht⟩ := msAssign_modes_extend bw rest modes
      exact ⟨t, by simpa using ht⟩
    | none =>
      dsimp only
      obtain ⟨t, ht⟩ := msAssign_modes_extend bw rest (modes ++ [p])
      exact ⟨[p] ++ t, by simpa [List.append_assoc] using ht⟩

/-- Helper: each pixel is within `bandwidth * 40` of its assigned mode,
or it is itself the stored mode value (it founded the mode). -/
theorem msAssign_dist_or_eq (bw : ℝ) : ∀ (rest modes : List (List ℝ)) (i : ℕ),
    i < rest.length →
    euclideanDistance (rest.getD i [])
        ((msAssign bw rest modes).1.getD ((msAssign bw rest modes).2.getD i 0) [])
        < bw * 40 ∨
      rest.getD i [] =
        (msAssign bw rest modes).1.getD ((msAssign bw rest modes).2.getD i 0) []
  | [], _, i, hi => absurd hi (by simp)
  | p :: rest, modes, 0, _ => by
    rw [msAssign]
    cases h : modes.findIdx? (fun m => decide (euclideanDistance p m < bw * 40)) with
    | some j =>
      dsimp only
      obtain ⟨hj, hp, _⟩ := List.findIdx?_eq_some_iff_getElem.1 h
      obtain ⟨t, ht⟩ := msAssign_modes_extend bw rest modes
      left
      simp only [List.getD_cons_zero]
      rw [ht, List.getD_append _ _ _ _ hj, List.getD_eq_getElem _ _ hj]
      exact of_decide_eq_true hp
    | none =>
      dsimp only
      obtain ⟨t, ht⟩ := msAssign_modes_extend bw rest (modes ++ [p])
      right
      simp only [List.getD_cons_zero]
      rw [ht, List.getD_append _ _ _ _ (by simp),
        List.getD_eq_getElem _ _ (by simp : modes.length < (modes ++ [p]).length)]
      simp
  | p :: rest, modes, i + 1, hi => by
    rw [msAssign]
    cases h : modes.findIdx? (fun m => decide (euclideanDistance p m < bw * 40)) with
    | some j =>
      dsimp only
      simpa using msAssign_dist_or_eq bw rest modes i (by simpa using hi)
    | none =>
      dsimp only
      simpa using msAssign_dist_or_eq bw rest (modes ++ [p]) i (by simpa using hi)

/-- Helper: every mode the sweep creates stores exactly the color of the
first pixel, in scan order, that was assigned that mode's index. -/
theorem msAssign_founder (bw : ℝ) : ∀ (rest modes : List (List ℝ)) (j : ℕ),
    modes.length ≤ j → j < (msAssign bw rest modes).1.length →
    ∃ i, i < rest.length ∧ (msAssign bw rest modes).2.getD i 0 = j ∧
      rest.getD i [] = (msAssign bw rest modes).1.getD j [] ∧
      ∀ m, m < i → (msAssign bw rest modes).2.getD m 0 ≠ j
  | [], modes, j, hle, hlt => by
    simp only [msAssign] at hlt
    omega
  | p :: rest, modes, j, hle, hlt => by
    rw [msAssign] at hlt ⊢
    cases h : modes.findIdx? (fun m => decide (euclideanDistance p m < bw * 40)) with
    | some jf =>
      rw [h] at hlt
      dsimp only at hlt ⊢
      obtain ⟨i, hi, hlab, heq, hfirst⟩ :=
        msAssign_founder bw rest modes j hle (by simpa using hlt)
      obtain ⟨hjf, _, _⟩ := List.findIdx?_eq_some_iff_getElem.1 h
      refine ⟨i + 1, by simpa using hi, by simpa using hlab, by simpa using heq, ?_⟩
      intro m hm
      cases m with
      | zero =>
        simp only [List.getD_cons_zero]
        omega
      | succ m' => simpa using hfirst m' (by omega)
    | none =>
      rw [h] at hlt
      dsimp only at hlt ⊢
      by_cases hj : j = modes.length
      · subst hj
        obtain ⟨t, ht⟩ := msAssign_modes_extend bw rest (modes ++ [p])
        refine ⟨0, by simp, by simp, ?_, fun m hm => absurd hm (Nat.not_lt_zero m)⟩
        simp only [List.getD_cons_zero]
        rw [ht, List.getD_append _ _ _ _ (by simp),
          List.getD_eq_getElem _ _ (by simp : modes.length < (modes ++ [p]).length)]
        simp
      · have hle' : (modes ++ [p]).length ≤ j := by
          simp only [List.length_append, List.length_cons, List.length_nil]
          omega
        obtain ⟨i, hi, hlab, heq, hfirst⟩ :=
          msAssign_founder bw rest (modes ++ [p]) j hle' (by simpa using hlt)
        refine ⟨i + 1, by simpa using hi, by simpa using hlab, by simpa using heq, ?_⟩
        intro m hm
        cases m with
        | zero =>
          simp only [List.getD_cons_zero]
          omega
        | succ m' => simpa using hfirst m' (by omega)

/-- C9: part_001's `meanShiftSegmentation` maintains the invariant that
every pixel is either within Euclidean RGB distance `bandwidth * 40` of
the centroid (mode) its label points at, or is exactly that centroid's
value (it founded the mode); and every returned centroid is exactly the
color of the first pixel, in scan order, that opened that mode. -/
theorem meanShift_mode_invariant (img : ImageData) (bw : ℝ) :
    (∀ i, i < (pixelsOfData img.data).length →
      euclideanDistance ((pixelsOfData img.data).getD i [])
          ((meanShiftSegmentation1 img bw).centroids.getD
            ((meanShiftSegmentation1 img bw).labels.getD i 0) []) < bw * 40 ∨
        (pixelsOfData img.data).getD i [] =
          (meanShiftSegmentation1 img bw).centroids.getD
            ((meanShiftSegmentation1 img bw).labels.getD i 0) []) ∧
    (∀ j, j < (meanShiftSegmentation1 img bw).centroids.length →
      ∃ i, i < (pixelsOfData img.data).length ∧
        (meanShiftSegmentation1 img bw).labels.getD i 0 = j ∧
        (pixelsOfData img.data).getD i [] =
          (meanShiftSegmentation1 img bw).centroids.getD j [] ∧
        ∀ m, m < i → (meanShiftSegmentation1 img bw).labels.getD m 0 ≠ j) := by
  constructor
  · intro i hi
    exact msAssign_dist_or_eq bw (pixelsOfData img.data) [] i hi
  · intro j hj
    exact msAssign_founder bw (pixelsOfData img.data) [] j (by simp) hj

/-- C9 witness: the mode invariant on a concrete one-pixel image (the
single pixel founds mode 0 and equals its centroid). -/
theorem meanShift_mode_invariant_witness :
    (euclideanDistance ((pixelsOfData [1, 2, 3, 4]).getD 0 [])
        ((meanShiftSegmentation1 ⟨1, 1, [1, 2, 3, 4]⟩ 1).centroids.getD
          ((meanShiftSegmentation1 ⟨1, 1, [1, 2, 3, 4]⟩ 1).labels.getD 0 0) []) < 1 * 40 ∨
      (pixelsOfData [1, 2, 3, 4]).getD 0 [] =
        (meanShiftSegmentation1 ⟨1, 1, [1, 2, 3, 4]⟩ 1).centroids.getD
          ((meanShiftSegmentation1 ⟨1, 1, [1, 2, 3, 4]⟩ 1).labels.getD 0 0) []) ∧
    (∃ i, i < (pixelsOfData [1, 2, 3, 4]).length ∧
      (meanShiftSegmentation1 ⟨1, 1, [1, 2, 3, 4]⟩ 1).labels.getD i 0 = 0 ∧
      (pixelsOfData [1, 2, 3, 4]).getD i [] =
        (meanShiftSegmentation1 ⟨1, 1, [1, 2, 3, 4]⟩ 1).centroids.getD 0 [] ∧
      ∀ m, m < i → (meanShiftSegmentation1 ⟨1, 1, [1, 2, 3, 4]⟩ 1).labels.getD m 0 ≠ 0) := by
  have h := meanShift_mode_invariant ⟨1, 1, [1, 2, 3, 4]⟩ 1
  refine ⟨h.1 0 (by simp [pixelsOfData]), h.2 0 ?_⟩
  show 0 < (msAssign 1 (pixelsOfData [1, 2, 3, 4]) []).1.length
  simp [pixelsOfData, msAssign]

/-- C10 witness: the range theorem applied at hue 1/2, saturation 1,
lightness 1/2. -/
theorem hslToRgb_in_range_witness :
    (hslToRgb (1/2) 1 (1/2)).length = 3 ∧
      ∀ z ∈ hslToRgb (1/2) 1 (1/2), 0 ≤ z ∧ z ≤ 255 :=
  hslToRgb_in_range (1/2) 1 (1/2) (by norm_num) (by norm_num) (by norm_num)
    (by norm_num) (by norm_num) (by norm_num)

/-- Helper: splitting a filtered sum along a second predicate. -/
theorem filter_split_sum {α : Type} (P Q : α → Bool) (f : α → ℝ) :
    ∀ l : List α, ((l.filter P).map f).sum =
      ((l.filter (fun x => P x && Q x)).map f).sum +
        ((l.filter (fun x => P x && !Q x)).map f).sum
  | [] => by simp
  | x :: t => by
    have ih := filter_split_sum P Q f t
    by_cases hP : P x
    · by_cases hQ : Q x
      · simp [List.filter_cons, hP, hQ]
        linarith [ih]
      · simp [List.filter_cons, hP, hQ]
        linarith [ih]
    · simp [List.filter_cons, hP]
      linarith [ih]

/-- Helper: splitting a filtered length along a second predicate. -/
theorem filter_split_length {α : Type} (P Q : α → Bool) :
    ∀ l : List α, (l.filter P).length =
      (l.filter (fun x => P x && Q x)).length +
        (l.filter (fun x => P x && !Q x)).length
  | [] => by simp
  | x :: t => by
    have ih := filter_split_length P Q t
    by_cases hP : P x
    · by_cases hQ : Q x
      · simp [List.filter_cons, hP, hQ]
        omega
      · simp [List.filter_cons, hP, hQ]
        omega
    · simp [List.filter_cons, hP]
      omega

/-- Helper: in an enumeration, filtering for one index (plus any
predicate that index satisfies) yields exactly that entry. -/
theorem enumFrom_filter_idx {α : Type} (P : ℕ × α → Bool) (i : ℕ) (p : α) :
    ∀ (l : List α) (n : ℕ), (i, p) ∈ l.enumFrom n → P (i, p) = true →
      (l.enumFrom n).filter (fun jp => P jp && jp.1 == i) = [(i, p)]
  | [], n, hmem, _ => absurd hmem (by simp)
  | a :: t, n, hmem, hP => by
    simp only [List.enumFrom, List.mem_cons] at hmem
    rcases hmem with heq | hmem
    · have hin : i = n ∧ p = a := by
        constructor
        · exact congrArg Prod.fst heq
        · exact congrArg Prod.snd heq
      obtain ⟨rfl, rfl⟩ := hin
      simp only [List.enumFrom, List.filter_cons, hP, beq_self_eq_true,
        Bool.and_true, if_true]
      rw [List.filter_eq_nil_iff.2]
      intro x hx
      have hge := List.le_fst_of_mem_enumFrom hx
      simp only [Bool.and_eq_true, beq_iff_eq]
      intro hcon
      omega
    · have hge := List.le_fst_of_mem_enumFrom hmem
      have hne : (a : α) = a := rfl
      have hheadne : ((n, a).1 == i) = false := by
        simp only [beq_eq_false_iff_ne, ne_eq]
        omega
      simp only [List.enumFrom, List.filter_cons, hheadne, Bool.and_false,
        if_false]
      exact enumFrom_filter_idx P i p t (n + 1) hmem hP

/-- Helper: an enumerated entry reads back through `getD`. -/
theorem mem_enumFrom_getD {α : Type} (d : α) :
    ∀ (l : List α) (n : ℕ) (iv : ℕ × α), iv ∈ l.enumFrom n →
      n ≤ iv.1 ∧ iv.1 - n < l.length ∧ l.getD (iv.1 - n) d = iv.2
  | [], _, iv, h => absurd h (by simp)
  | a :: t, n, iv, h => by
    simp only [List.enumFrom, List.mem_cons] at h
    rcases h with rfl | h
    · simp
    · obtain ⟨h1, h2, h3⟩ := mem_enumFrom_getD d t (n + 1) iv h
      refine ⟨by omega, by simp only [List.length_cons]; omega, ?_⟩
      rw [show iv.1 - n = (iv.1 - (n + 1)) + 1 by omega, List.getD_cons_succ]
      exact h3

/-- Helper: the squared distance of a pixel to itself vanishes. -/
theorem sqDist_self (p : List ℝ) : sqDist p p = 0 := by
  rw [sqDist]
  have key : ∀ (q : List (ℕ × ℝ)) (acc : ℝ), (∀ iv ∈ q, p.getD iv.1 0 = iv.2) →
      q.foldl (fun s vi => s + (vi.2 - p.getD vi.1 0) ^ 2) acc = acc := by
    intro q
    induction q with
    | nil => intro acc _; rfl
    | cons iv t ih =>
      intro acc h
      rw [List.foldl_cons, h iv (by simp)]
      have hz : acc + (iv.2 - iv.2) ^ 2 = acc := by ring
      rw [hz]
      exact ih acc (fun x hx => h x (by simp [hx]))
  refine key p.enum 0 ?_
  intro iv hiv
  have h := (mem_enumFrom_getD (0 : ℝ) p 0 iv hiv).2.2
  simpa using h

/-- Helper: the Euclidean distance of a pixel to itself vanishes. -/
theorem euclideanDistance_self (p : List ℝ) : euclideanDistance p p = 0 := by
  rw [euclideanDistance, sqDist_self, Real.sqrt_zero]

/-- Helper: the code's intra-cluster term `a` — summed distance over the
whole own cluster (self included, contributing 0) divided by size minus
one — equals the spec's mean distance to the *other* own-cluster
pixels. -/
theorem silhouette_a_eq (pixels : List (List ℝ)) (labels : List ℕ) (i : ℕ)
    (p : List ℝ) (hmem : (i, p) ∈ pixels.enum) :
    silhouetteA pixels labels i p = specSilhouetteA pixels labels i p := by
  have hself : pixels.enum.filter
      (fun jp => (labels.getD jp.1 0 == labels.getD i 0) && !(jp.1 != i)) = [(i, p)] := by
    have hcongr : pixels.enum.filter
        (fun jp => (labels.getD jp.1 0 == labels.getD i 0) && !(jp.1 != i)) =
        pixels.enum.filter
        (fun jp => (labels.getD jp.1 0 == labels.getD i 0) && (jp.1 == i)) := by
      apply List.filter_congr
      intro x hx
      simp [bne]
    rw [hcongr]
    exact enumFrom_filter_idx _ i p pixels 0 hmem (by simp)
  have hsplit_sum := filter_split_sum
    (fun jp : ℕ × List ℝ => labels.getD jp.1 0 == labels.getD i 0)
    (fun jp : ℕ × List ℝ => jp.1 != i)
    (fun jp : ℕ × List ℝ => euclideanDistance p jp.2) pixels.enum
  have hsplit_len := filter_split_length
    (fun jp : ℕ × List ℝ => labels.getD jp.1 0 == labels.getD i 0)
    (fun jp : ℕ × List ℝ => jp.1 != i) pixels.enum
  rw [hself] at hsplit_sum hsplit_len
  simp only [List.map_cons, List.map_nil, List.sum_cons, List.sum_nil,
    List.length_cons, List.length_nil, euclideanDistance_self, add_zero] at hsplit_sum hsplit_len
  simp only [silhouetteA, specSilhouetteA, silhouetteSame, List.map_map,
    List.length_map]
  rw [foldl_add_eq_sum, foldl_add_eq_sum, zero_add, zero_add]
  simp only [Function.comp_def]
  rw [hsplit_sum, hsplit_len]
  by_cases hz : (List.filter
      (fun jp => labels.getD jp.1 0 == labels.getD i 0 && jp.1 != i) pixels.enum).length = 0
  · have h1 : ¬(1 < (List.filter
        (fun jp => labels.getD jp.1 0 == labels.getD i 0 && jp.1 != i)
        pixels.enum).length + (0 + 1)) := by omega
    rw [if_neg h1, if_pos hz]
  · have h1 : 1 < (List.filter
        (fun jp => labels.getD jp.1 0 == labels.getD i 0 && jp.1 != i)
        pixels.enum).length + (0 + 1) := by omega
    rw [if_pos h1, if_neg hz]
    congr 1
    push_cast
    ring

/-- Helper: the per-pixel coefficients of code and spec agree. -/
theorem silhouetteCoeff_eq (pixels : List (List ℝ)) (labels : List ℕ)
    (uniq : List ℕ) (i : ℕ) (p : List ℝ) (hmem : (i, p) ∈ pixels.enum) :
    silhouetteCoeff pixels labels uniq i p =
      specSilhouetteCoeff pixels labels uniq i p := by
  rw [silhouetteCoeff, specSilhouetteCoeff, silhouette_a_eq pixels labels i p hmem]

/-- C3: `calculateSilhouetteScore` computes exactly the specification's
formula: per pixel, `a` is the mean distance to the other pixels of its
own cluster (0 for a singleton cluster — the code's division of the
all-members sum by size minus one equals this, the self-distance being
0), `b` is the minimum over the other clusters of the mean distance to
that cluster's pixels, the per-pixel score is 0 when `a = 0` and
`(b - a) / max a b` otherwise, and the result is the mean of the
per-pixel scores. -/
theorem silhouette_matches_spec (img : ImageData) (labels : List ℕ) :
    calculateSilhouetteScore img labels = specSilhouetteScore img labels := by
  rw [calculateSilhouetteScore, specSilhouetteScore]
  have hmap : (pixelsOfData img.data).enum.map
      (fun ip => silhouetteCoeff (pixelsOfData img.data) labels (jsUnique labels) ip.1 ip.2) =
      (pixelsOfData img.data).enum.map
      (fun ip => specSilhouetteCoeff (pixelsOfData img.data) labels (jsUnique labels) ip.1 ip.2) := by
    apply List.map_congr_left
    intro ip hip
    exact silhouetteCoeff_eq _ _ _ ip.1 ip.2 (by simpa using hip)
  rw [hmap]

end ImageSeg
